import Mathlib

/-!
# TCP listener (`src/listener.js`)

A shallow embedding of the listener factory of `src/listener.js`.

* The closure variables `peerId`, `listeningAddr` and the fields of the
  `net.Server` the listener reads (`server.listening`, `server.address()`,
  `server.__connections`) are fields of `State`.
* Every accepted socket gets a fresh `SocketId`; the wrapped connection
  `maConn` built from it by `toConnection` carries the same identifier, so
  that `c !== maConn` is inequality of identifiers.
* Calls that leave the listener (to a socket, the upgrader, the consumer,
  the acceptor) are appended to `State.effects`, in call order.
* The multiaddr methods and the functions imported from `./utils` and
  `./constants` are not part of `listener.js`; they are the fields of `Deps`.
* Callbacks supplied from outside (`handler`, observers of the listener's
  notifications, `maConn.close`) are taken to return normally.
-/

namespace Listener

/-- Identity of an accepted raw socket and of the `maConn` wrapping it. -/
abbrev SocketId := Nat

/-- Identity of a connection returned by `upgrader.upgradeInbound`. -/
abbrev UpgradedConn := Nat

/-- The object `server.address()` returns for a bound TCP server. -/
structure AddressInfo where
  address : String
  family : String
  port : Nat
  deriving DecidableEq, Repr

/-- The bind options `multiaddrToNetConfig` produces. -/
structure NetConfig where
  host : String
  port : Nat
  deriving DecidableEq, Repr

/-- What `listener.js` calls on multiaddrs and imports from `./utils` and
`./constants`; `M` is the multiaddr type. -/
structure Deps (M : Type) where
  toString : M → String
  getPeerId : M → Option String
  decapsulateCode : M → Nat → M
  encapsulate : M → String → M
  CODE_P2P : Nat
  getMultiaddrs : String → String → Nat → List M
  multiaddrToNetConfig : M → NetConfig

/-- The three acceptor events the listener forwards as notifications. -/
inductive ServerEvent where
  | listening
  | error (err : String)
  | close
  deriving DecidableEq, Repr

/-- Calls leaving the listener, in the order they are made. -/
inductive Effect where
  /-- The call `socket.on('error', ...)` on a freshly accepted socket. -/
  | socketOnError (s : SocketId)
  /-- The call `toConnection(socket, { listeningAddr })`. -/
  | toConnection (s : SocketId)
  /-- The call `upgrader.upgradeInbound(maConn)`. -/
  | upgradeInbound (s : SocketId)
  /-- The call `handler(conn)` made for the socket `s`. -/
  | handler (s : SocketId) (conn : UpgradedConn)
  /-- The call `listener.emit('connection', conn)` made for the socket `s`. -/
  | emitConnection (s : SocketId) (conn : UpgradedConn)
  /-- The promise of the accept handler of socket `s` rejects. -/
  | acceptRejected (s : SocketId) (err : String)
  /-- The call `maConn.close()`. -/
  | maConnClose (s : SocketId)
  /-- The call `server.close(...)`. -/
  | serverClose
  /-- The call `server.listen(options, ...)`. -/
  | serverListen (options : NetConfig)
  /-- The calls `listener.emit('listening' | 'error' | 'close')`. -/
  | emit (e : ServerEvent)
  deriving DecidableEq, Repr

/-- Errors `getAddrs` can throw. -/
inductive JsError where
  /-- An `Error` object with the given message. -/
  | error (message : String)
  /-- The `TypeError` of a method call on `undefined`. -/
  | typeError
  deriving DecidableEq, Repr

/-- The listener, its acceptor and the sockets it has accepted. -/
structure State (M : Type) where
  /-- Value of `server.listening`. -/
  listening : Bool
  /-- Value of `server.address()`. -/
  address : Option AddressInfo
  /-- Value of `server.__connections`. -/
  connections : List SocketId
  /-- The closure variable `peerId`. -/
  peerId : Option String
  /-- The closure variable `listeningAddr`; `none` is `undefined`. -/
  listeningAddr : Option M
  /-- Number of sockets accepted so far; the next socket gets this identifier. -/
  nextSocket : Nat
  /-- Sockets whose accept handler is suspended at `await upgradeInbound`. -/
  upgrading : List SocketId
  /-- Sockets whose `'close'` event has been emitted. -/
  closed : List SocketId
  /-- Sockets on which `once('close', untrackConn)` is registered and has not
  fired. -/
  closeObservers : List SocketId
  /-- Log of the `untrackConn` invocations. -/
  untracked : List SocketId
  /-- Calls made so far. -/
  effects : List Effect

/-- State right after the factory returns: `server.__connections = []`, both
closure variables `undefined`, the server not listening. -/
def init (M : Type) : State M :=
  { listening := false, address := none, connections := [], peerId := none,
    listeningAddr := none, nextSocket := 0, upgrading := [], closed := [],
    closeObservers := [], untracked := [], effects := [] }

/-- JavaScript truthiness of a value that is `null` or a string. -/
def truthy : Option String → Bool
  | none => false
  | some s => s != ""

/-- The test `s.startsWith(p)`. -/
def startsWith (s p : String) : Bool :=
  p.data.isPrefixOf s.data

/-- The function `untrackConn` of `trackConn (server, maConn)`: the registry is
replaced by a filtered copy. -/
def untrackConn {M : Type} (st : State M) (maConn : SocketId) : State M :=
  { st with connections := st.connections.filter (fun c => c != maConn),
            untracked := st.untracked ++ [maConn] }

/-- The function `trackConn (server, maConn)`: push, then register
`untrackConn` as a one-shot observer of the socket's `'close'` event. -/
def trackConn {M : Type} (st : State M) (maConn : SocketId) : State M :=
  { st with connections := st.connections ++ [maConn],
            closeObservers := st.closeObservers ++ [maConn] }

/-- The socket `s` emits `'close'`. Only a socket that exists emits, and it
emits once; the one-shot observers registered at that moment run and are
dropped. -/
def socketClose {M : Type} (st : State M) (s : SocketId) : State M :=
  if st.nextSocket ≤ s ∨ s ∈ st.closed then st
  else
    let st1 := { st with closed := st.closed ++ [s] }
    if s ∈ st1.closeObservers then
      untrackConn { st1 with closeObservers := st1.closeObservers.filter (fun c => c != s) } s
    else st1

/-- The call `maConn.close()`: the call is recorded, and the sockets in
`fires maConn` emit `'close'` before the call returns. -/
def maConnClose {M : Type} (fires : SocketId → List SocketId) (st : State M)
    (maConn : SocketId) : State M :=
  (fires maConn).foldl socketClose { st with effects := st.effects ++ [Effect.maConnClose maConn] }

/-- The call `server.close(...)`: the acceptor releases its handle, so
`server.listening` is false and `server.address()` is `null` from then on. -/
def serverClose {M : Type} (st : State M) : State M :=
  { st with listening := false, address := none,
            effects := st.effects ++ [Effect.serverClose] }

/-- What `listener.close()` returns. -/
inductive CloseResult where
  /-- The early `return` of the guard. -/
  | undefined
  /-- The promise settled by the callback of `server.close`. -/
  | promise
  deriving DecidableEq, Repr

/-- The method `listener.close`. The `forEach` walks the array that
`server.__connections` holds when it starts; `untrackConn` assigns a new
array and leaves that one as it is. -/
def close {M : Type} (fires : SocketId → List SocketId) (st : State M) :
    State M × CloseResult :=
  if !st.listening then (st, CloseResult.undefined)
  else
    let st1 := st.connections.foldl (maConnClose fires) st
    (serverClose st1, CloseResult.promise)

/-- The method `listener.listen`; `bind` is the outcome of `server.listen`:
the bound endpoint, or `none` when binding fails. -/
def listen {M : Type} (d : Deps M) (st : State M) (ma : M) (bind : Option AddressInfo) :
    State M :=
  let peerId := d.getPeerId ma
  let listeningAddr := if truthy peerId then d.decapsulateCode ma d.CODE_P2P else ma
  let options := d.multiaddrToNetConfig listeningAddr
  let st1 := { st with listeningAddr := some listeningAddr, peerId := peerId,
                       effects := st.effects ++ [Effect.serverListen options] }
  match bind with
  | some info => { st1 with listening := true, address := some info }
  | none => st1

/-- The arrow function mapped over `addrs` at the end of `getAddrs`:
`ma => peerId ? ma.encapsulate('/p2p/' + peerId) : ma`. -/
def encapsulatePeerId {M : Type} (d : Deps M) (peerId : Option String) (ma : M) : M :=
  match peerId with
  | some p => if truthy (some p) then d.encapsulate ma ("/p2p/" ++ p) else ma
  | none => ma

/-- The method `listener.getAddrs`. -/
def getAddrs {M : Type} (d : Deps M) (st : State M) : Except JsError (List M) :=
  match st.address with
  | none => Except.error (JsError.error "Listener is not ready yet")
  | some address =>
    match st.listeningAddr with
    | none => Except.error JsError.typeError
    | some listeningAddr =>
      let addrs : List M :=
        if startsWith (d.toString listeningAddr) "/ip4" then
          [] ++ d.getMultiaddrs "ip4" address.address address.port
        else if address.family = "IPv6" then
          [] ++ d.getMultiaddrs "ip6" address.address address.port
        else []
      Except.ok (addrs.map (encapsulatePeerId d st.peerId))

/-- Whether a direct `handler` was given to the factory. -/
structure Config where
  handler : Bool
  deriving DecidableEq, Repr

/-- The accept handler up to its `await`: the socket gets an error observer,
is wrapped, and the upgrade is started. -/
def accept {M : Type} (st : State M) : State M :=
  let s := st.nextSocket
  { st with nextSocket := s + 1, upgrading := st.upgrading ++ [s],
            effects := st.effects ++
              [Effect.socketOnError s, Effect.toConnection s, Effect.upgradeInbound s] }

/-- The accept handler after its `await`, when `upgradeInbound` resolved with
`conn`. -/
def upgradeResolved {M : Type} (cfg : Config) (st : State M) (s : SocketId)
    (conn : UpgradedConn) : State M :=
  let st1 := trackConn { st with upgrading := st.upgrading.filter (fun c => c != s) } s
  let st2 := if cfg.handler then { st1 with effects := st1.effects ++ [Effect.handler s conn] }
             else st1
  { st2 with effects := st2.effects ++ [Effect.emitConnection s conn] }

/-- The accept handler after its `await`, when `upgradeInbound` rejected: the
exception leaves the handler, whose promise rejects. -/
def upgradeRejected {M : Type} (st : State M) (s : SocketId) (err : String) : State M :=
  { st with upgrading := st.upgrading.filter (fun c => c != s),
            effects := st.effects ++ [Effect.acceptRejected s err] }

/-- The observers installed by `server.on(...)`: each acceptor event is
re-emitted on the listener. -/
def serverEvent {M : Type} (st : State M) (e : ServerEvent) : State M :=
  { st with effects := st.effects ++ [Effect.emit e] }

/-- What can happen to a listener. -/
inductive Action (M : Type) where
  | listen (ma : M) (bind : Option AddressInfo)
  | accept
  | upgradeOk (s : SocketId) (conn : UpgradedConn)
  | upgradeFail (s : SocketId) (err : String)
  | socketClose (s : SocketId)
  | close (fires : SocketId → List SocketId)
  | serverEvent (e : ServerEvent)

/-- When an action can happen: the acceptor binds only when it is not
listening and accepts only while listening, an upgrade settles only while it
is in progress, and a socket that exists emits `'close'` once. -/
def enabled {M : Type} (st : State M) : Action M → Bool
  | Action.listen _ bind => !st.listening || bind.isNone
  | Action.accept => st.listening
  | Action.upgradeOk s _ => decide (s ∈ st.upgrading)
  | Action.upgradeFail s _ => decide (s ∈ st.upgrading)
  | Action.socketClose s => decide (s < st.nextSocket) && !decide (s ∈ st.closed)
  | Action.close _ => true
  | Action.serverEvent _ => true

/-- One action applied to a state. -/
def step {M : Type} (d : Deps M) (cfg : Config) (st : State M) : Action M → State M
  | Action.listen ma bind => listen d st ma bind
  | Action.accept => accept st
  | Action.upgradeOk s conn => upgradeResolved cfg st s conn
  | Action.upgradeFail s err => upgradeRejected st s err
  | Action.socketClose s => socketClose st s
  | Action.close fires => (close fires st).1
  | Action.serverEvent e => serverEvent st e

/-- A sequence of actions applied from a state; `none` when one of them
cannot happen. -/
def run {M : Type} (d : Deps M) (cfg : Config) : State M → List (Action M) → Option (State M)
  | st, [] => some st
  | st, a :: as => if enabled st a then run d cfg (step d cfg st a) as else none

/-- Whether an effect hands an upgraded connection of socket `s` to the
consumer: the `handler` call or the `'connection'` notification. -/
def isDelivery (s : SocketId) : Effect → Bool
  | Effect.handler s' _ => s' == s
  | Effect.emitConnection s' _ => s' == s
  | _ => false

/-- The deliveries made for socket `s`, in order. -/
def deliveries (s : SocketId) (effects : List Effect) : List Effect :=
  effects.filter (isDelivery s)

/-- The deliveries the accept handler makes for socket `s` once its upgrade
resolved with `conn`. -/
def expectedDeliveries (cfg : Config) (s : SocketId) (conn : UpgradedConn) : List Effect :=
  (if cfg.handler then [Effect.handler s conn] else []) ++ [Effect.emitConnection s conn]

/-! ## A concrete multiaddr and address utility

Used to run the listener on explicit inputs. -/

namespace Demo

/-- One component of a multiaddr: protocol name and value. -/
structure Tuple where
  name : String
  value : String
  deriving DecidableEq, Repr

/-- A multiaddr as the sequence of its components. -/
abbrev Multiaddr := List Tuple

/-- Protocol codes of the multiaddr table. -/
def protoCode (name : String) : Nat :=
  if name = "ip4" then 4
  else if name = "tcp" then 6
  else if name = "ip6" then 41
  else if name = "dns4" then 54
  else if name = "dns6" then 55
  else if name = "p2p" then 421
  else 0

/-- String form: `/name/value` for each component. -/
def toString (ma : Multiaddr) : String :=
  String.join (ma.map (fun t => "/" ++ t.name ++ "/" ++ t.value))

/-- Value of the last `p2p` component, `none` (`null`) without one. -/
def getPeerId (ma : Multiaddr) : Option String :=
  ((ma.filter (fun t => t.name = "p2p")).getLast?).map (fun t => t.value)

/-- Drops the last component with the given code and everything after it;
the address is returned as it is when no component has that code. -/
def decapsulateCode : Multiaddr → Nat → Multiaddr
  | [], _ => []
  | t :: rest, code =>
    if rest.any (fun u => protoCode u.name == code) then t :: decapsulateCode rest code
    else if protoCode t.name == code then []
    else t :: rest

/-- Cuts a character sequence at every occurrence of `sep`. -/
def splitAt (sep : Char) : List Char → List (List Char)
  | [] => [[]]
  | c :: cs =>
    match splitAt sep cs with
    | [] => [[]]
    | w :: ws => if c = sep then [] :: w :: ws else (c :: w) :: ws

/-- Groups `name, value, name, value, ...` into components. -/
def pairs : List (List Char) → Multiaddr
  | n :: v :: rest => { name := String.mk n, value := String.mk v } :: pairs rest
  | _ => []

/-- Reads the string form of a multiaddr. -/
def parse (s : String) : Multiaddr :=
  pairs (splitAt '/' s.data).tail

/-- Appends the components of the string form `s`. -/
def encapsulate (ma : Multiaddr) (s : String) : Multiaddr :=
  ma ++ parse s

/-- Reads a decimal number. -/
def readNat (s : String) : Nat :=
  s.data.foldl (fun n c => 10 * n + (c.toNat - 48)) 0

/-- Host/port of the first two components. -/
def multiaddrToNetConfig (ma : Multiaddr) : NetConfig :=
  match ma with
  | h :: p :: _ => { host := h.value, port := readNat p.value }
  | _ => { host := "", port := 0 }

/-- Whether a host is a wildcard (any-address) host. -/
def isAnyAddr (ip : String) : Bool :=
  ip = "0.0.0.0" || ip = "::"

/-- Modelled from the spec: `getMultiaddrs` of `./utils`, the operation
"convert socket address to overlay addresses (family, host, port)": one overlay
address `/proto/host/tcp/port` for a host that is not a wildcard, and one per
address in `ifaces proto` for a wildcard host. -/
def getMultiaddrs (ifaces : String → List String) (proto ip : String) (port : Nat) :
    List Multiaddr :=
  (if isAnyAddr ip then ifaces proto else [ip]).map
    (fun h => [{ name := proto, value := h }, { name := "tcp", value := Nat.repr port }])

/-- A host with one loopback address per family. -/
def loopback (proto : String) : List String :=
  if proto = "ip4" then ["127.0.0.1"] else if proto = "ip6" then ["::1"] else []

/-- The dependencies of the listener on a host with the loopback interface. -/
def deps : Deps Multiaddr :=
  { toString := toString, getPeerId := getPeerId, decapsulateCode := decapsulateCode,
    encapsulate := encapsulate, CODE_P2P := 421,
    getMultiaddrs := getMultiaddrs loopback, multiaddrToNetConfig := multiaddrToNetConfig }

/-! ### Concrete listeners -/

/-- A listener bound through `/ip4/127.0.0.1/tcp/8000/p2p/QmPeer`. -/
def withPeer : State Multiaddr :=
  listen deps (init Multiaddr) (parse "/ip4/127.0.0.1/tcp/8000/p2p/QmPeer")
    (some { address := "127.0.0.1", family := "IPv4", port := 8000 })

/-- A listener bound through `/ip4/127.0.0.1/tcp/8000`. -/
def plain : State Multiaddr :=
  listen deps (init Multiaddr) (parse "/ip4/127.0.0.1/tcp/8000")
    (some { address := "127.0.0.1", family := "IPv4", port := 8000 })

/-- A listener bound through `/dns4/localhost/tcp/8000`, the name resolving to
`127.0.0.1`. -/
def dnsLocalhost : State Multiaddr :=
  listen deps (init Multiaddr) (parse "/dns4/localhost/tcp/8000")
    (some { address := "127.0.0.1", family := "IPv4", port := 8000 })

/-- A listener bound through `/dns4/127.0.0.1/tcp/8000`. -/
def dnsLiteral : State Multiaddr :=
  listen deps (init Multiaddr) (parse "/dns4/127.0.0.1/tcp/8000")
    (some { address := "127.0.0.1", family := "IPv4", port := 8000 })

/-- A consumer that supplied a direct handler. -/
def cfg : Config := { handler := true }

/-- The call `listen('/ip4/127.0.0.1/tcp/8000')`, bound to `127.0.0.1:8000`. -/
def listenPlain : Action Multiaddr :=
  Action.listen (parse "/ip4/127.0.0.1/tcp/8000")
    (some { address := "127.0.0.1", family := "IPv4", port := 8000 })

/-- One socket accepted, its upgrade in progress. -/
def oneUpgrading : State Multiaddr :=
  accept plain

/-- Two sockets accepted and upgraded. -/
def twoTracked : State Multiaddr :=
  upgradeResolved cfg (upgradeResolved cfg (accept (accept plain)) 0 10) 1 11

/-- One socket accepted; it emitted `'close'` while its upgrade was in
progress, and the upgrade then resolved. -/
def closedBeforeTracked : State Multiaddr :=
  upgradeResolved cfg (socketClose (accept plain) 0) 0 10

/-- One socket accepted, its upgrade rejected. -/
def upgradeFailed : State Multiaddr :=
  upgradeRejected (accept plain) 0 "handshake failed"

end Demo

/-! ## Predicates on states -/

section Predicates

variable {M : Type}

/-- What relates a state to a later one when only `'close'` events and
recorded calls lie between them. -/
structure Shrink (st st' : State M) : Prop where
  nextSocket : st'.nextSocket = st.nextSocket
  upgrading : st'.upgrading = st.upgrading
  listening : st'.listening = st.listening
  address : st'.address = st.address
  listeningAddr : st'.listeningAddr = st.listeningAddr
  peerId : st'.peerId = st.peerId
  sublist : st'.connections.Sublist st.connections
  closedMono : ∀ c, c ∈ st.closed → c ∈ st'.closed
  removed : ∀ c, c ∈ st.connections → c ∉ st'.connections → c ∉ st.closed ∧ c ∈ st'.closed
  untrackedOld : ∀ c, c ∈ st.closed → c ∉ st.untracked → c ∉ st'.untracked

/-- What holds in every state reachable from `init`. -/
structure Inv (st : State M) : Prop where
  upLt : ∀ s, s ∈ st.upgrading → s < st.nextSocket
  connNodup : st.connections.Nodup
  connLt : ∀ s, s ∈ st.connections → s < st.nextSocket
  disj : ∀ s, s ∈ st.upgrading → s ∉ st.connections
  bound : st.address ≠ none → st.listeningAddr ≠ none
  quiet : ∀ s, (st.nextSocket ≤ s ∨ s ∈ st.upgrading) →
    deliveries s st.effects = [] ∧ Effect.maConnClose s ∉ st.effects

/-- Socket `s` is settled with deliveries `L`: it exists, its upgrade is no
longer in progress, and `L` is what was delivered for it. -/
def Settled (s : SocketId) (L : List Effect) (st : State M) : Prop :=
  s < st.nextSocket ∧ s ∉ st.upgrading ∧ deliveries s st.effects = L

/-- Socket `s` is dropped: it exists, its upgrade is no longer in progress, it
is not in the registry and no `close` was requested on it. -/
def Dropped (s : SocketId) (st : State M) : Prop :=
  s < st.nextSocket ∧ s ∉ st.upgrading ∧ s ∉ st.connections ∧
    Effect.maConnClose s ∉ st.effects

/-- Socket `c` is a stale entry: its `'close'` event has been emitted, it is in
the registry, and `untrackConn` never ran for it. -/
def Stale (c : SocketId) (st : State M) : Prop :=
  c ∈ st.closed ∧ c ∈ st.connections ∧ c ∉ st.untracked

end Predicates

/-! ## Address resolution -/

section Addresses

variable {M : Type}

theorem getAddrs_of_bound (d : Deps M) (st : State M) (ep : AddressInfo) (la : M)
    (hep : st.address = some ep) (hla : st.listeningAddr = some la) :
    getAddrs d st = Except.ok
      ((if startsWith (d.toString la) "/ip4" then d.getMultiaddrs "ip4" ep.address ep.port
        else if ep.family = "IPv6" then d.getMultiaddrs "ip6" ep.address ep.port
        else []).map (encapsulatePeerId d st.peerId)) := by
  simp only [getAddrs, hep, hla, List.nil_append]

theorem encapsulatePeerId_falsy (d : Deps M) (p : Option String) (h : truthy p = false) :
    encapsulatePeerId d p = id := by
  funext ma
  cases p with
  | none => rfl
  | some q => simp only [encapsulatePeerId, h, Bool.false_eq_true, if_false, id]

theorem encapsulatePeerId_truthy (d : Deps M) (q : String) (h : q ≠ "") (ma : M) :
    encapsulatePeerId d (some q) ma = d.encapsulate ma ("/p2p/" ++ q) := by
  simp [encapsulatePeerId, truthy, h]

end Addresses

section AddressClaims

variable {M : Type}

/-- C5, as stated, fails: the listener bound through
`/ip4/127.0.0.1/tcp/8000/p2p/QmPeer` has an IPv4 bind target, and `getAddrs`
returns `/ip4/127.0.0.1/tcp/8000/p2p/QmPeer`, which is not the bare IPv4
expansion `/ip4/127.0.0.1/tcp/8000`. -/
theorem getAddrs_ip4_not_bare_expansion :
    Demo.withPeer.address = some { address := "127.0.0.1", family := "IPv4", port := 8000 } ∧
    Demo.withPeer.listeningAddr = some (Demo.parse "/ip4/127.0.0.1/tcp/8000") ∧
    startsWith (Demo.deps.toString (Demo.parse "/ip4/127.0.0.1/tcp/8000")) "/ip4" = true ∧
    getAddrs Demo.deps Demo.withPeer =
      Except.ok [Demo.parse "/ip4/127.0.0.1/tcp/8000/p2p/QmPeer"] ∧
    getAddrs Demo.deps Demo.withPeer ≠
      Except.ok (Demo.deps.getMultiaddrs "ip4" "127.0.0.1" 8000) := by
  refine ⟨rfl, rfl, rfl, rfl, ?_⟩
  have h1 : getAddrs Demo.deps Demo.withPeer =
      Except.ok [Demo.parse "/ip4/127.0.0.1/tcp/8000/p2p/QmPeer"] := rfl
  rw [h1]
  intro h
  have h2 := Except.ok.inj h
  revert h2
  decide

/-- C5, amended: for a bound endpoint `ep` and bind target `la`, if the string
form of `la` starts with `/ip4` then `getAddrs` returns the IPv4 expansion
`getMultiaddrs('ip4', address, port)` whatever family the OS reports; otherwise,
if the OS reports family `IPv6`, it returns the IPv6 expansion; in both cases
with the stored peer identity, when there is one, encapsulated onto every
address, and exactly the expansion when none is stored. -/
theorem getAddrs_family (d : Deps M) (st : State M) (ep : AddressInfo) (la : M)
    (hep : st.address = some ep) (hla : st.listeningAddr = some la) :
    (startsWith (d.toString la) "/ip4" = true →
      getAddrs d st = Except.ok
          ((d.getMultiaddrs "ip4" ep.address ep.port).map (encapsulatePeerId d st.peerId)) ∧
      (truthy st.peerId = false →
        getAddrs d st = Except.ok (d.getMultiaddrs "ip4" ep.address ep.port))) ∧
    (startsWith (d.toString la) "/ip4" = false → ep.family = "IPv6" →
      getAddrs d st = Except.ok
          ((d.getMultiaddrs "ip6" ep.address ep.port).map (encapsulatePeerId d st.peerId)) ∧
      (truthy st.peerId = false →
        getAddrs d st = Except.ok (d.getMultiaddrs "ip6" ep.address ep.port))) := by
  have h := getAddrs_of_bound d st ep la hep hla
  refine ⟨fun h4 => ⟨?_, fun hp => ?_⟩, fun h4 h6 => ⟨?_, fun hp => ?_⟩⟩
  · rw [h, if_pos h4]
  · rw [h, if_pos h4, encapsulatePeerId_falsy d _ hp, List.map_id]
  · rw [h, if_neg (by simp [h4]), if_pos h6]
  · rw [h, if_neg (by simp [h4]), if_pos h6, encapsulatePeerId_falsy d _ hp, List.map_id]

/-- Witness of `getAddrs_family`: a bind target `/ip4/127.0.0.1/tcp/8000`
whose socket the OS reports as `IPv6`. -/
theorem getAddrs_family_witness :
    getAddrs Demo.deps
        { Demo.plain with address := some { address := "127.0.0.1", family := "IPv6", port := 8000 } }
      = Except.ok [Demo.parse "/ip4/127.0.0.1/tcp/8000"] :=
  ((getAddrs_family Demo.deps
      { Demo.plain with address := some { address := "127.0.0.1", family := "IPv6", port := 8000 } }
      { address := "127.0.0.1", family := "IPv6", port := 8000 }
      (Demo.parse "/ip4/127.0.0.1/tcp/8000") rfl rfl).1 rfl).2 rfl

/-- C6: after a successful `listen(ma)` bound to the endpoint `ep`: when `ma`
carries a peer identity `p`, the bind target is `ma.decapsulateCode(CODE_P2P)`,
the acceptor is asked to bind its net options, and `getAddrs` returns the
resolver output for that bind target and `ep` (the `ip4` expansion when the
target's string form starts with `/ip4`, else the `ip6` expansion when the OS
reports `IPv6`, else nothing) with `/p2p/p` encapsulated onto each address;
when `ma` carries none, the bind target is `ma` itself and `getAddrs` returns
the resolver output for `ma` and `ep` unchanged, no `encapsulate` applied. -/
theorem listen_getAddrs_identity (d : Deps M) (st0 : State M) (ma : M) (ep : AddressInfo) :
    (∀ p : String, d.getPeerId ma = some p → p ≠ "" →
      (listen d st0 ma (some ep)).listeningAddr = some (d.decapsulateCode ma d.CODE_P2P) ∧
      (listen d st0 ma (some ep)).effects = st0.effects ++
        [Effect.serverListen (d.multiaddrToNetConfig (d.decapsulateCode ma d.CODE_P2P))] ∧
      getAddrs d (listen d st0 ma (some ep)) =
        Except.ok
          ((if startsWith (d.toString (d.decapsulateCode ma d.CODE_P2P)) "/ip4" then
              d.getMultiaddrs "ip4" ep.address ep.port
            else if ep.family = "IPv6" then d.getMultiaddrs "ip6" ep.address ep.port
            else []).map (fun a => d.encapsulate a ("/p2p/" ++ p)))) ∧
    (d.getPeerId ma = none →
      (listen d st0 ma (some ep)).listeningAddr = some ma ∧
      (listen d st0 ma (some ep)).effects = st0.effects ++
        [Effect.serverListen (d.multiaddrToNetConfig ma)] ∧
      getAddrs d (listen d st0 ma (some ep)) =
        Except.ok
          (if startsWith (d.toString ma) "/ip4" then d.getMultiaddrs "ip4" ep.address ep.port
           else if ep.family = "IPv6" then d.getMultiaddrs "ip6" ep.address ep.port
           else [])) := by
  have hep : (listen d st0 ma (some ep)).address = some ep := by
    simp [listen]
  constructor
  · intro p hp hne
    have ht : truthy (some p) = true := by simp [truthy, hne]
    have hla : (listen d st0 ma (some ep)).listeningAddr =
        some (d.decapsulateCode ma d.CODE_P2P) := by
      simp [listen, hp, ht]
    have hpid : (listen d st0 ma (some ep)).peerId = some p := by
      simp [listen, hp]
    refine ⟨hla, by simp [listen, hp, ht], ?_⟩
    have h := getAddrs_of_bound d _ ep _ hep hla
    rw [hpid] at h
    have hfun : encapsulatePeerId d (some p) = fun a => d.encapsulate a ("/p2p/" ++ p) := by
      funext a
      exact encapsulatePeerId_truthy d p hne a
    rw [hfun] at h
    exact h
  · intro hp
    have ht : truthy (none : Option String) = false := rfl
    have hla : (listen d st0 ma (some ep)).listeningAddr = some ma := by
      simp [listen, hp, ht]
    have hpid : (listen d st0 ma (some ep)).peerId = none := by
      simp [listen, hp]
    refine ⟨hla, by simp [listen, hp, ht], ?_⟩
    have h := getAddrs_of_bound d _ ep _ hep hla
    rw [hpid, encapsulatePeerId_falsy d _ ht, List.map_id] at h
    exact h

/-- Witness of `listen_getAddrs_identity`: `/ip4/127.0.0.1/tcp/8000/p2p/QmPeer`
carries the identity `QmPeer`; the bind target is `/ip4/127.0.0.1/tcp/8000` and
`getAddrs` returns `/ip4/127.0.0.1/tcp/8000/p2p/QmPeer`. -/
theorem listen_getAddrs_identity_witness :
    Demo.withPeer.listeningAddr = some (Demo.parse "/ip4/127.0.0.1/tcp/8000") ∧
    getAddrs Demo.deps Demo.withPeer =
      Except.ok [Demo.parse "/ip4/127.0.0.1/tcp/8000/p2p/QmPeer"] :=
  ⟨((listen_getAddrs_identity Demo.deps (init Demo.Multiaddr)
      (Demo.parse "/ip4/127.0.0.1/tcp/8000/p2p/QmPeer")
      { address := "127.0.0.1", family := "IPv4", port := 8000 }).1
    "QmPeer" rfl (by decide)).1,
   ((listen_getAddrs_identity Demo.deps (init Demo.Multiaddr)
      (Demo.parse "/ip4/127.0.0.1/tcp/8000/p2p/QmPeer")
      { address := "127.0.0.1", family := "IPv4", port := 8000 }).1
    "QmPeer" rfl (by decide)).2.2⟩

/-- C7, as stated, fails: `/dns4/127.0.0.1/tcp/8000` and
`/dns4/localhost/tcp/8000` are bind addresses whose host is not a wildcard, the
OS binds `127.0.0.1:8000` and reports family `IPv4`, the address utility yields
one overlay address for that host under either family, and `getAddrs` returns
the empty sequence. -/
theorem getAddrs_dns4_empty :
    Demo.deps.multiaddrToNetConfig (Demo.parse "/dns4/127.0.0.1/tcp/8000") =
      { host := "127.0.0.1", port := 8000 } ∧
    Demo.isAnyAddr "127.0.0.1" = false ∧
    Demo.dnsLiteral.address = some { address := "127.0.0.1", family := "IPv4", port := 8000 } ∧
    Demo.deps.getMultiaddrs "ip4" "127.0.0.1" 8000 = [Demo.parse "/ip4/127.0.0.1/tcp/8000"] ∧
    Demo.deps.getMultiaddrs "ip6" "127.0.0.1" 8000 = [Demo.parse "/ip6/127.0.0.1/tcp/8000"] ∧
    getAddrs Demo.deps Demo.dnsLiteral = Except.ok [] ∧
    Demo.deps.multiaddrToNetConfig (Demo.parse "/dns4/localhost/tcp/8000") =
      { host := "localhost", port := 8000 } ∧
    Demo.isAnyAddr "localhost" = false ∧
    getAddrs Demo.deps Demo.dnsLocalhost = Except.ok [] := by
  refine ⟨by decide, by decide, rfl, by decide, by decide, rfl, by decide, by decide, rfl⟩

/-- C7, amended: after a successful `listen(ma)` with bind target `la`, when
the OS binds the requested host and port and the address utility yields the one
overlay address `a` for that host and port, `getAddrs` returns exactly that one
address (with the stored peer identity encapsulated, when there is one)
provided the string form of `la` starts with `/ip4` (utility called with
`ip4`) or the OS reports family `IPv6` (utility called with `ip6`); when
neither holds, `getAddrs` returns the empty sequence. -/
theorem getAddrs_single (d : Deps M) (st0 : State M) (ma la : M) (ep : AddressInfo)
    (hla : (listen d st0 ma (some ep)).listeningAddr = some la)
    (hhost : ep.address = (d.multiaddrToNetConfig la).host)
    (hport : ep.port = (d.multiaddrToNetConfig la).port) :
    (∀ a : M, startsWith (d.toString la) "/ip4" = true →
      d.getMultiaddrs "ip4" (d.multiaddrToNetConfig la).host (d.multiaddrToNetConfig la).port
        = [a] →
      getAddrs d (listen d st0 ma (some ep)) =
        Except.ok [encapsulatePeerId d (d.getPeerId ma) a]) ∧
    (∀ a : M, startsWith (d.toString la) "/ip4" = false → ep.family = "IPv6" →
      d.getMultiaddrs "ip6" (d.multiaddrToNetConfig la).host (d.multiaddrToNetConfig la).port
        = [a] →
      getAddrs d (listen d st0 ma (some ep)) =
        Except.ok [encapsulatePeerId d (d.getPeerId ma) a]) ∧
    (startsWith (d.toString la) "/ip4" = false → ep.family ≠ "IPv6" →
      getAddrs d (listen d st0 ma (some ep)) = Except.ok []) := by
  have hep : (listen d st0 ma (some ep)).address = some ep := by simp [listen]
  have hpid : (listen d st0 ma (some ep)).peerId = d.getPeerId ma := by simp [listen]
  have h := getAddrs_of_bound d _ ep la hep hla
  rw [hpid, hhost, hport] at h
  refine ⟨fun a h4 hone => ?_, fun a h4 h6 hone => ?_, fun h4 h6 => ?_⟩
  · rw [h, if_pos h4, hone, List.map_cons, List.map_nil]
  · rw [h, if_neg (by simp [h4]), if_pos h6, hone, List.map_cons, List.map_nil]
  · rw [h, if_neg (by simp [h4]), if_neg h6, List.map_nil]

/-- Witness of `getAddrs_single`: `/ip4/127.0.0.1/tcp/8000` bound to
`127.0.0.1:8000`. -/
theorem getAddrs_single_witness :
    getAddrs Demo.deps Demo.plain = Except.ok [Demo.parse "/ip4/127.0.0.1/tcp/8000"] :=
  (getAddrs_single Demo.deps (init Demo.Multiaddr) (Demo.parse "/ip4/127.0.0.1/tcp/8000")
      (Demo.parse "/ip4/127.0.0.1/tcp/8000")
      { address := "127.0.0.1", family := "IPv4", port := 8000 } rfl (by decide) (by decide)).1
    (Demo.parse "/ip4/127.0.0.1/tcp/8000") rfl (by decide)

end AddressClaims

/-! ## Closing a listener that is not listening -/

section CloseIdle

variable {M : Type}

/-- C10: `close()` on a listener whose acceptor is not listening returns at
the guard (`undefined`, no exception) and the state is the one before the call:
no call is made to a connection or to the acceptor, and the registry, the bind
target and the stored peer identity are what they were. -/
theorem close_not_listening (fires : SocketId → List SocketId) (st : State M)
    (h : st.listening = false) :
    close fires st = (st, CloseResult.undefined) ∧
    (close fires st).1.effects = st.effects ∧
    (close fires st).1.connections = st.connections ∧
    (close fires st).1.listeningAddr = st.listeningAddr ∧
    (close fires st).1.peerId = st.peerId := by
  have hc : close fires st = (st, CloseResult.undefined) := by
    simp [close, h]
  rw [hc]
  exact ⟨rfl, rfl, rfl, rfl, rfl⟩

/-- Witness of `close_not_listening`: a listener that never listened. -/
theorem close_not_listening_witness :
    close (fun _ => []) (init Demo.Multiaddr) = (init Demo.Multiaddr, CloseResult.undefined) :=
  (close_not_listening (fun _ => []) (init Demo.Multiaddr) rfl).1

end CloseIdle

/-! ## The registry under `'close'` events -/

section Registry

variable {M : Type}

theorem Shrink.refl (st : State M) : Shrink st st :=
  { nextSocket := rfl, upgrading := rfl, listening := rfl, address := rfl,
    listeningAddr := rfl, peerId := rfl, sublist := List.Sublist.refl _,
    closedMono := fun _ h => h, removed := fun _ h h' => absurd h h',
    untrackedOld := fun _ _ h => h }

theorem Shrink.trans {a b c : State M} (h1 : Shrink a b) (h2 : Shrink b c) : Shrink a c :=
  { nextSocket := h2.nextSocket.trans h1.nextSocket
    upgrading := h2.upgrading.trans h1.upgrading
    listening := h2.listening.trans h1.listening
    address := h2.address.trans h1.address
    listeningAddr := h2.listeningAddr.trans h1.listeningAddr
    peerId := h2.peerId.trans h1.peerId
    sublist := h2.sublist.trans h1.sublist
    closedMono := fun x hx => h2.closedMono x (h1.closedMono x hx)
    removed := by
      intro x hx hx'
      by_cases hb : x ∈ b.connections
      · have := h2.removed x hb hx'
        exact ⟨fun hcl => this.1 (h1.closedMono x hcl), this.2⟩
      · have := h1.removed x hx hb
        exact ⟨this.1, h2.closedMono x this.2⟩
    untrackedOld := fun x hx hu =>
      h2.untrackedOld x (h1.closedMono x hx) (h1.untrackedOld x hx hu) }

theorem Shrink.kept {st st' : State M} (h : Shrink st st') (c : SocketId)
    (hc : c ∈ st.connections) (hcl : c ∈ st.closed) : c ∈ st'.connections := by
  by_contra hn
  exact (h.removed c hc hn).1 hcl

theorem shrink_setEffects (st : State M) (e : List Effect) :
    Shrink st { st with effects := e } :=
  { nextSocket := rfl, upgrading := rfl, listening := rfl, address := rfl,
    listeningAddr := rfl, peerId := rfl, sublist := List.Sublist.refl _,
    closedMono := fun _ h => h, removed := fun _ h h' => absurd h h',
    untrackedOld := fun _ _ h => h }

theorem shrink_socketClose (st : State M) (s : SocketId) : Shrink st (socketClose st s) := by
  unfold socketClose
  by_cases h : st.nextSocket ≤ s ∨ s ∈ st.closed
  · rw [if_pos h]
    exact Shrink.refl st
  · rw [if_neg h]
    have hcl : s ∉ st.closed := fun hc => h (Or.inr hc)
    by_cases ho : s ∈ st.closeObservers
    · simp only [ho, if_true, untrackConn]
      refine { nextSocket := rfl, upgrading := rfl, listening := rfl, address := rfl,
               listeningAddr := rfl, peerId := rfl, sublist := List.filter_sublist _,
               closedMono := ?_, removed := ?_, untrackedOld := ?_ }
      · intro c hc
        simp [hc]
      · intro c hc hn
        have hcs : c = s := by
          by_contra hne
          exact hn (by simp [List.mem_filter, hc, hne])
        subst hcs
        exact ⟨hcl, by simp⟩
      · intro c hc hu
        have hne : c ≠ s := fun e => hcl (e ▸ hc)
        simp [hu, hne]
    · simp only [ho, if_false]
      refine { nextSocket := rfl, upgrading := rfl, listening := rfl, address := rfl,
               listeningAddr := rfl, peerId := rfl, sublist := List.Sublist.refl _,
               closedMono := ?_, removed := fun _ h h' => absurd h h',
               untrackedOld := fun _ _ h => h }
      intro c hc
      simp [hc]

theorem socketClose_effects (st : State M) (s : SocketId) :
    (socketClose st s).effects = st.effects := by
  unfold socketClose untrackConn
  split
  · rfl
  · dsimp only
    split <;> rfl

theorem shrink_foldl_socketClose (l : List SocketId) (st : State M) :
    Shrink st (l.foldl socketClose st) := by
  induction l generalizing st with
  | nil => exact Shrink.refl st
  | cons s l ih => exact (shrink_socketClose st s).trans (ih _)

theorem foldl_socketClose_effects (l : List SocketId) (st : State M) :
    (l.foldl socketClose st).effects = st.effects := by
  induction l generalizing st with
  | nil => rfl
  | cons s l ih => rw [List.foldl_cons, ih, socketClose_effects]

theorem shrink_maConnClose (fires : SocketId → List SocketId) (st : State M) (c : SocketId) :
    Shrink st (maConnClose fires st c) :=
  (shrink_setEffects st _).trans (shrink_foldl_socketClose _ _)

theorem maConnClose_effects (fires : SocketId → List SocketId) (st : State M) (c : SocketId) :
    (maConnClose fires st c).effects = st.effects ++ [Effect.maConnClose c] := by
  unfold maConnClose
  rw [foldl_socketClose_effects]

theorem shrink_foldl_maConnClose (fires : SocketId → List SocketId) (l : List SocketId)
    (st : State M) : Shrink st (l.foldl (maConnClose fires) st) := by
  induction l generalizing st with
  | nil => exact Shrink.refl st
  | cons c l ih => exact (shrink_maConnClose fires st c).trans (ih _)

theorem foldl_maConnClose_effects (fires : SocketId → List SocketId) (l : List SocketId)
    (st : State M) :
    (l.foldl (maConnClose fires) st).effects = st.effects ++ l.map Effect.maConnClose := by
  induction l generalizing st with
  | nil => simp
  | cons c l ih =>
    rw [List.foldl_cons, ih, maConnClose_effects, List.map_cons, List.append_assoc]
    rfl

theorem close_listening (fires : SocketId → List SocketId) (st : State M)
    (h : st.listening = true) :
    close fires st =
      (serverClose (st.connections.foldl (maConnClose fires) st), CloseResult.promise) := by
  simp [close, h]

end Registry

/-! ## Invariants of reachable states -/

section Invariants

variable {M : Type}

theorem inv_init : Inv (init M) :=
  { upLt := by simp [init], connNodup := by simp [init], connLt := by simp [init],
    disj := by simp [init], bound := by simp [init],
    quiet := by simp [init, deliveries] }

theorem deliveries_append (s : SocketId) (l1 l2 : List Effect) :
    deliveries s (l1 ++ l2) = deliveries s l1 ++ deliveries s l2 := by
  simp [deliveries]

theorem deliveries_map_maConnClose (s : SocketId) (l : List SocketId) :
    deliveries s (l.map Effect.maConnClose) = [] := by
  induction l with
  | nil => rfl
  | cons c l ih =>
    simp only [deliveries, List.map_cons, List.filter_cons, isDelivery] at ih ⊢
    simpa using ih

theorem inv_listen (d : Deps M) (st : State M) (ma : M) (bind : Option AddressInfo)
    (h : Inv st) : Inv (listen d st ma bind) := by
  cases bind with
  | none =>
    exact { upLt := h.upLt, connNodup := h.connNodup, connLt := h.connLt, disj := h.disj,
            bound := by simp [listen],
            quiet := by
              intro s hs
              have := h.quiet s hs
              simp only [listen, deliveries_append, this.1, List.nil_append]
              refine ⟨by simp [deliveries, isDelivery], ?_⟩
              simp [this.2] }
  | some ep =>
    exact { upLt := h.upLt, connNodup := h.connNodup, connLt := h.connLt, disj := h.disj,
            bound := by simp [listen],
            quiet := by
              intro s hs
              have := h.quiet s hs
              simp only [listen, deliveries_append, this.1, List.nil_append]
              refine ⟨by simp [deliveries, isDelivery], ?_⟩
              simp [this.2] }

theorem inv_accept (st : State M) (h : Inv st) : Inv (accept st) := by
  refine { upLt := ?_, connNodup := h.connNodup, connLt := ?_, disj := ?_,
           bound := h.bound, quiet := ?_ }
  · intro s hs
    simp only [accept, List.mem_append, List.mem_singleton] at hs ⊢
    rcases hs with hs | hs
    · exact Nat.lt_succ_of_lt (h.upLt s hs)
    · rw [hs]; exact Nat.lt_succ_self _
  · intro s hs
    exact Nat.lt_succ_of_lt (h.connLt s hs)
  · intro s hs
    simp only [accept, List.mem_append, List.mem_singleton] at hs ⊢
    rcases hs with hs | hs
    · exact h.disj s hs
    · intro hc
      have := h.connLt s hc
      rw [hs] at this
      exact Nat.lt_irrefl _ this
  · intro s hs
    have hold : st.nextSocket ≤ s ∨ s ∈ st.upgrading := by
      simp only [accept, List.mem_append, List.mem_singleton] at hs
      rcases hs with hs | hs | hs
      · left; omega
      · right; exact hs
      · left; omega
    have := h.quiet s hold
    simp only [accept, deliveries_append, this.1, List.nil_append]
    refine ⟨by simp [deliveries, isDelivery], ?_⟩
    simp [this.2]

theorem upgradeResolved_effects (cfg : Config) (st : State M) (s : SocketId)
    (conn : UpgradedConn) :
    (upgradeResolved cfg st s conn).effects = st.effects ++ expectedDeliveries cfg s conn := by
  unfold upgradeResolved expectedDeliveries trackConn
  cases cfg.handler <;> simp

theorem upgradeResolved_connections (cfg : Config) (st : State M) (s : SocketId)
    (conn : UpgradedConn) :
    (upgradeResolved cfg st s conn).connections = st.connections ++ [s] := by
  unfold upgradeResolved trackConn
  cases cfg.handler <;> simp

theorem upgradeResolved_upgrading (cfg : Config) (st : State M) (s : SocketId)
    (conn : UpgradedConn) :
    (upgradeResolved cfg st s conn).upgrading = st.upgrading.filter (fun c => c != s) := by
  unfold upgradeResolved trackConn
  cases cfg.handler <;> simp

theorem upgradeResolved_nextSocket (cfg : Config) (st : State M) (s : SocketId)
    (conn : UpgradedConn) :
    (upgradeResolved cfg st s conn).nextSocket = st.nextSocket := by
  unfold upgradeResolved trackConn
  cases cfg.handler <;> simp

theorem upgradeResolved_address (cfg : Config) (st : State M) (s : SocketId)
    (conn : UpgradedConn) :
    (upgradeResolved cfg st s conn).address = st.address ∧
    (upgradeResolved cfg st s conn).listeningAddr = st.listeningAddr := by
  unfold upgradeResolved trackConn
  cases cfg.handler <;> simp

theorem deliveries_expected_self (cfg : Config) (s : SocketId) (conn : UpgradedConn) :
    deliveries s (expectedDeliveries cfg s conn) = expectedDeliveries cfg s conn := by
  unfold expectedDeliveries deliveries
  cases cfg.handler <;> simp [isDelivery]

theorem deliveries_expected_other (cfg : Config) (s u : SocketId) (conn : UpgradedConn)
    (h : u ≠ s) : deliveries u (expectedDeliveries cfg s conn) = [] := by
  unfold expectedDeliveries deliveries
  have h' : s ≠ u := fun e => h e.symm
  cases cfg.handler <;> simp [isDelivery, h']

theorem maConnClose_not_mem_expected (cfg : Config) (s u : SocketId) (conn : UpgradedConn) :
    Effect.maConnClose u ∉ expectedDeliveries cfg s conn := by
  unfold expectedDeliveries
  cases cfg.handler <;> simp

theorem inv_upgradeResolved (cfg : Config) (st : State M) (s : SocketId) (conn : UpgradedConn)
    (h : Inv st) (hs : s ∈ st.upgrading) : Inv (upgradeResolved cfg st s conn) := by
  have hsl := h.upLt s hs
  refine { upLt := ?_, connNodup := ?_, connLt := ?_, disj := ?_, bound := ?_, quiet := ?_ }
  · intro u hu
    rw [upgradeResolved_upgrading] at hu
    rw [upgradeResolved_nextSocket]
    exact h.upLt u (List.mem_filter.mp hu).1
  · rw [upgradeResolved_connections]
    refine List.Nodup.append h.connNodup (List.nodup_singleton s) ?_
    intro u hu hu'
    rw [List.mem_singleton] at hu'
    subst hu'
    exact h.disj u hs hu
  · intro u hu
    rw [upgradeResolved_connections, List.mem_append, List.mem_singleton] at hu
    rw [upgradeResolved_nextSocket]
    rcases hu with hu | hu
    · exact h.connLt u hu
    · rw [hu]; exact hsl
  · intro u hu
    rw [upgradeResolved_upgrading, List.mem_filter] at hu
    rw [upgradeResolved_connections, List.mem_append, List.mem_singleton]
    have hne : u ≠ s := by simpa using hu.2
    rintro (hc | hc)
    · exact h.disj u hu.1 hc
    · exact hne hc
  · rw [(upgradeResolved_address cfg st s conn).1, (upgradeResolved_address cfg st s conn).2]
    exact h.bound
  · intro u hu
    rw [upgradeResolved_nextSocket, upgradeResolved_upgrading, List.mem_filter] at hu
    have hne : u ≠ s := by
      rcases hu with hu | hu
      · intro e
        rw [e] at hu
        exact Nat.not_lt.mpr hu hsl
      · simpa using hu.2
    have hold : st.nextSocket ≤ u ∨ u ∈ st.upgrading := hu.imp id (fun x => x.1)
    have := h.quiet u hold
    rw [upgradeResolved_effects, deliveries_append, this.1,
      deliveries_expected_other cfg s u conn hne]
    refine ⟨rfl, ?_⟩
    rw [List.mem_append]
    rintro (hm | hm)
    · exact this.2 hm
    · exact maConnClose_not_mem_expected cfg s u conn hm

theorem inv_upgradeRejected (st : State M) (s : SocketId) (err : String) (h : Inv st) :
    Inv (upgradeRejected st s err) := by
  refine { upLt := ?_, connNodup := h.connNodup, connLt := h.connLt, disj := ?_,
           bound := h.bound, quiet := ?_ }
  · intro u hu
    exact h.upLt u (List.mem_filter.mp hu).1
  · intro u hu
    exact h.disj u (List.mem_filter.mp hu).1
  · intro u hu
    have hold : st.nextSocket ≤ u ∨ u ∈ st.upgrading :=
      hu.imp id (fun x => (List.mem_filter.mp x).1)
    have := h.quiet u hold
    simp only [upgradeRejected, deliveries_append, this.1, List.nil_append]
    refine ⟨by simp [deliveries, isDelivery], ?_⟩
    simp [this.2]

theorem inv_serverEvent (st : State M) (e : ServerEvent) (h : Inv st) :
    Inv (serverEvent st e) := by
  refine { upLt := h.upLt, connNodup := h.connNodup, connLt := h.connLt, disj := h.disj,
           bound := h.bound, quiet := ?_ }
  intro u hu
  have := h.quiet u hu
  simp only [serverEvent, deliveries_append, this.1, List.nil_append]
  refine ⟨by simp [deliveries, isDelivery], ?_⟩
  simp [this.2]

theorem inv_of_shrink {st st' : State M} (h : Inv st) (hs : Shrink st st')
    (extra : List SocketId)
    (heff : st'.effects = st.effects ++ extra.map Effect.maConnClose)
    (hextra : ∀ c, c ∈ extra → c ∈ st.connections) : Inv st' := by
  refine { upLt := ?_, connNodup := h.connNodup.sublist hs.sublist, connLt := ?_, disj := ?_,
           bound := ?_, quiet := ?_ }
  · rw [hs.upgrading, hs.nextSocket]; exact h.upLt
  · intro u hu
    rw [hs.nextSocket]
    exact h.connLt u (hs.sublist.subset hu)
  · intro u hu hc
    rw [hs.upgrading] at hu
    exact h.disj u hu (hs.sublist.subset hc)
  · rw [hs.address, hs.listeningAddr]; exact h.bound
  · intro u hu
    rw [hs.upgrading, hs.nextSocket] at hu
    have := h.quiet u hu
    rw [heff, deliveries_append, this.1, deliveries_map_maConnClose]
    refine ⟨rfl, ?_⟩
    rw [List.mem_append]
    rintro (hm | hm)
    · exact this.2 hm
    · rw [List.mem_map] at hm
      obtain ⟨c, hc, hce⟩ := hm
      have hcu : c = u := by injection hce
      subst hcu
      have hconn := hextra c hc
      rcases hu with hu | hu
      · exact Nat.not_lt.mpr hu (h.connLt c hconn)
      · exact h.disj c hu hconn

theorem inv_serverClose (st : State M) (h : Inv st) : Inv (serverClose st) := by
  refine { upLt := h.upLt, connNodup := h.connNodup, connLt := h.connLt, disj := h.disj,
           bound := by simp [serverClose], quiet := ?_ }
  intro u hu
  have := h.quiet u hu
  simp only [serverClose, deliveries_append, this.1, List.nil_append]
  refine ⟨by simp [deliveries, isDelivery], ?_⟩
  simp [this.2]

theorem inv_socketClose (st : State M) (s : SocketId) (h : Inv st) :
    Inv (socketClose st s) :=
  inv_of_shrink h (shrink_socketClose st s) [] (by simp [socketClose_effects]) (by simp)

theorem inv_close (fires : SocketId → List SocketId) (st : State M) (h : Inv st) :
    Inv (close fires st).1 := by
  by_cases hl : st.listening = true
  · rw [close_listening fires st hl]
    exact inv_serverClose _
      (inv_of_shrink h (shrink_foldl_maConnClose fires _ st) st.connections
        (foldl_maConnClose_effects fires _ st) (fun _ hc => hc))
  · have hl' : st.listening = false := by simpa using hl
    simp [close, hl', h]

theorem inv_step (d : Deps M) (cfg : Config) (st : State M) (a : Action M)
    (h : Inv st) (he : enabled st a = true) : Inv (step d cfg st a) := by
  cases a with
  | listen ma bind => exact inv_listen d st ma bind h
  | accept => exact inv_accept st h
  | upgradeOk s conn =>
    exact inv_upgradeResolved cfg st s conn h (by simpa [enabled] using he)
  | upgradeFail s err => exact inv_upgradeRejected st s err h
  | socketClose s => exact inv_socketClose st s h
  | close fires => exact inv_close fires st h
  | serverEvent e => exact inv_serverEvent st e h

/-- A property that every enabled step preserves holds along every run. -/
theorem run_preserves (d : Deps M) (cfg : Config) (P : State M → Prop)
    (hstep : ∀ st a, P st → enabled st a = true → P (step d cfg st a))
    (acts : List (Action M)) (st st' : State M) (h : P st)
    (hrun : run d cfg st acts = some st') : P st' := by
  induction acts generalizing st with
  | nil =>
    simp only [run, Option.some.injEq] at hrun
    exact hrun ▸ h
  | cons a acts ih =>
    simp only [run] at hrun
    by_cases he : enabled st a = true
    · rw [if_pos he] at hrun
      exact ih _ (hstep st a h he) hrun
    · rw [if_neg he] at hrun
      exact absurd hrun (by simp)

theorem inv_run (d : Deps M) (cfg : Config) (acts : List (Action M)) (st st' : State M)
    (h : Inv st) (hrun : run d cfg st acts = some st') : Inv st' :=
  run_preserves d cfg Inv (fun st a => inv_step d cfg st a) acts st st' h hrun

end Invariants

/-! ## What one step can change -/

section Steps

variable {M : Type}

theorem close_cases (fires : SocketId → List SocketId) (st : State M) :
    (close fires st).1 = st ∨
    ∃ st1, Shrink st st1 ∧
      st1.effects = st.effects ++ st.connections.map Effect.maConnClose ∧
      (close fires st).1 = serverClose st1 := by
  by_cases hl : st.listening = true
  · right
    refine ⟨_, shrink_foldl_maConnClose fires st.connections st,
      foldl_maConnClose_effects fires _ st, ?_⟩
    rw [close_listening fires st hl]
  · left
    have hl' : st.listening = false := by simpa using hl
    simp [close, hl']

theorem step_nextSocket_le (d : Deps M) (cfg : Config) (st : State M) (a : Action M) :
    st.nextSocket ≤ (step d cfg st a).nextSocket := by
  cases a with
  | listen ma bind => cases bind <;> simp [step, listen]
  | accept => simp [step, accept]
  | upgradeOk s conn => simp [step, upgradeResolved_nextSocket]
  | upgradeFail s err => simp [step, upgradeRejected]
  | socketClose s => simp [step, (shrink_socketClose st s).nextSocket]
  | close fires =>
    rcases close_cases fires st with h | ⟨st1, hs, _, h⟩
    · simp [step, h]
    · simp [step, h, serverClose, hs.nextSocket]
  | serverEvent e => simp [step, serverEvent]

theorem step_upgrading (d : Deps M) (cfg : Config) (st : State M) (a : Action M)
    (u : SocketId) (hu : u ∈ (step d cfg st a).upgrading) :
    u ∈ st.upgrading ∨ st.nextSocket ≤ u := by
  cases a with
  | listen ma bind =>
    left
    cases bind <;> simpa [step, listen] using hu
  | accept =>
    simp only [step, accept, List.mem_append, List.mem_singleton] at hu
    rcases hu with hu | hu
    · exact Or.inl hu
    · exact Or.inr (Nat.le_of_eq hu.symm)
  | upgradeOk s conn =>
    simp only [step, upgradeResolved_upgrading] at hu
    exact Or.inl (List.mem_filter.mp hu).1
  | upgradeFail s err =>
    exact Or.inl (List.mem_filter.mp hu).1
  | socketClose s =>
    simp only [step, (shrink_socketClose st s).upgrading] at hu
    exact Or.inl hu
  | close fires =>
    left
    rcases close_cases fires st with h | ⟨st1, hs, _, h⟩
    · simpa [step, h] using hu
    · simpa [step, h, serverClose, hs.upgrading] using hu
  | serverEvent e => exact Or.inl hu

theorem step_connections (d : Deps M) (cfg : Config) (st : State M) (a : Action M)
    (he : enabled st a = true) (c : SocketId) (hc : c ∈ (step d cfg st a).connections) :
    c ∈ st.connections ∨ c ∈ st.upgrading := by
  cases a with
  | listen ma bind =>
    left
    cases bind <;> simpa [step, listen] using hc
  | accept => exact Or.inl hc
  | upgradeOk s conn =>
    simp only [step, upgradeResolved_connections, List.mem_append, List.mem_singleton] at hc
    rcases hc with hc | hc
    · exact Or.inl hc
    · right
      rw [hc]
      simpa [enabled] using he
  | upgradeFail s err => exact Or.inl hc
  | socketClose s => exact Or.inl ((shrink_socketClose st s).sublist.subset hc)
  | close fires =>
    left
    rcases close_cases fires st with h | ⟨st1, hs, _, h⟩
    · simpa [step, h] using hc
    · simp only [step, h, serverClose] at hc
      exact hs.sublist.subset hc
  | serverEvent e => exact Or.inl hc

theorem step_deliveries (d : Deps M) (cfg : Config) (st : State M) (a : Action M)
    (he : enabled st a = true) (s : SocketId) (hs : s ∉ st.upgrading) :
    deliveries s (step d cfg st a).effects = deliveries s st.effects := by
  cases a with
  | listen ma bind =>
    cases bind <;> simp [step, listen, deliveries_append, deliveries, isDelivery]
  | accept => simp [step, accept, deliveries_append, deliveries, isDelivery]
  | upgradeOk u conn =>
    have hu : u ∈ st.upgrading := by simpa [enabled] using he
    have hne : s ≠ u := fun e => hs (e ▸ hu)
    simp [step, upgradeResolved_effects, deliveries_append,
      deliveries_expected_other cfg u s conn hne]
  | upgradeFail u err =>
    simp [step, upgradeRejected, deliveries_append, deliveries, isDelivery]
  | socketClose u => simp [step, socketClose_effects]
  | close fires =>
    rcases close_cases fires st with h | ⟨st1, _, heff, h⟩
    · simp [step, h]
    · simp only [step, h, serverClose, heff, deliveries_append, deliveries_map_maConnClose]
      simp [deliveries, isDelivery]
  | serverEvent e =>
    simp [step, serverEvent, deliveries_append, deliveries, isDelivery]

theorem step_maConnClose (d : Deps M) (cfg : Config) (st : State M) (a : Action M)
    (c : SocketId) (hc : Effect.maConnClose c ∈ (step d cfg st a).effects) :
    Effect.maConnClose c ∈ st.effects ∨ c ∈ st.connections := by
  cases a with
  | listen ma bind =>
    left
    cases bind <;> simpa [step, listen] using hc
  | accept =>
    left
    simpa [step, accept] using hc
  | upgradeOk u conn =>
    left
    simp only [step, upgradeResolved_effects, List.mem_append] at hc
    rcases hc with hc | hc
    · exact hc
    · exact absurd hc (maConnClose_not_mem_expected cfg u c conn)
  | upgradeFail u err =>
    left
    simpa [step, upgradeRejected] using hc
  | socketClose u =>
    left
    simpa [step, socketClose_effects] using hc
  | close fires =>
    rcases close_cases fires st with h | ⟨st1, _, heff, h⟩
    · left
      simpa [step, h] using hc
    · simp only [step, h, serverClose, heff, List.mem_append, List.mem_map,
        List.mem_singleton] at hc
      rcases hc with (hc | ⟨x, hx, hxe⟩) | hc
      · exact Or.inl hc
      · right
        have : x = c := by injection hxe
        exact this ▸ hx
      · exact absurd hc (by simp)
  | serverEvent e =>
    left
    simpa [step, serverEvent] using hc

theorem settled_step (d : Deps M) (cfg : Config) (s : SocketId) (L : List Effect)
    (st : State M) (a : Action M) (h : Settled s L st) (he : enabled st a = true) :
    Settled s L (step d cfg st a) := by
  obtain ⟨h1, h2, h3⟩ := h
  refine ⟨Nat.lt_of_lt_of_le h1 (step_nextSocket_le d cfg st a), ?_, ?_⟩
  · intro hu
    rcases step_upgrading d cfg st a s hu with hu | hu
    · exact h2 hu
    · exact Nat.not_lt.mpr hu h1
  · rw [step_deliveries d cfg st a he s h2, h3]

theorem dropped_step (d : Deps M) (cfg : Config) (s : SocketId)
    (st : State M) (a : Action M) (h : Dropped s st) (he : enabled st a = true) :
    Dropped s (step d cfg st a) := by
  obtain ⟨h1, h2, h3, h4⟩ := h
  refine ⟨Nat.lt_of_lt_of_le h1 (step_nextSocket_le d cfg st a), ?_, ?_, ?_⟩
  · intro hu
    rcases step_upgrading d cfg st a s hu with hu | hu
    · exact h2 hu
    · exact Nat.not_lt.mpr hu h1
  · intro hc
    rcases step_connections d cfg st a he s hc with hc | hc
    · exact h3 hc
    · exact h2 hc
  · intro hc
    rcases step_maConnClose d cfg st a s hc with hc | hc
    · exact h4 hc
    · exact h3 hc

theorem stale_of_shrink {st st' : State M} (c : SocketId) (h : Stale c st)
    (hs : Shrink st st') : Stale c st' :=
  ⟨hs.closedMono c h.1, hs.kept c h.2.1 h.1, hs.untrackedOld c h.1 h.2.2⟩

theorem stale_step (d : Deps M) (cfg : Config) (c : SocketId)
    (st : State M) (a : Action M) (h : Stale c st) : Stale c (step d cfg st a) := by
  cases a with
  | listen ma bind => cases bind <;> exact h
  | accept => exact h
  | upgradeOk s conn =>
    obtain ⟨h1, h2, h3⟩ := h
    refine ⟨?_, ?_, ?_⟩
    · unfold step upgradeResolved trackConn
      cases cfg.handler <;> exact h1
    · simp only [step, upgradeResolved_connections, List.mem_append]
      exact Or.inl h2
    · unfold step upgradeResolved trackConn
      cases cfg.handler <;> exact h3
  | upgradeFail s err => exact h
  | socketClose s => exact stale_of_shrink c h (shrink_socketClose st s)
  | close fires =>
    rcases close_cases fires st with hc | ⟨st1, hs, _, hc⟩
    · simp only [step, hc]
      exact h
    · simp only [step, hc]
      have h1 : Stale c st1 := stale_of_shrink c h hs
      exact h1
  | serverEvent e => exact h

end Steps

/-! ## The listener along its runs -/

section Runs

variable {M : Type}

/-- C1: for a listening listener in a reachable state, `close()` returns the
promise, and the calls it makes are exactly one `maConn.close()` for each
connection in the registry, in registry order, followed by `server.close`; each
connection of the registry is closed exactly once, also when the `close()` of a
connection makes sockets emit `'close'` (and so runs `untrackConn`) before it
returns; an entry that left the registry during the call is one whose socket
emitted `'close'` during the call. -/
theorem close_requests_every_connection (d : Deps M) (cfg : Config)
    (acts : List (Action M)) (st : State M) (fires : SocketId → List SocketId)
    (hrun : run d cfg (init M) acts = some st) (hl : st.listening = true) :
    (close fires st).2 = CloseResult.promise ∧
    (close fires st).1.effects =
      st.effects ++ st.connections.map Effect.maConnClose ++ [Effect.serverClose] ∧
    (st.connections.map Effect.maConnClose).length = st.connections.length ∧
    (∀ c, c ∈ st.connections →
      (st.connections.map Effect.maConnClose).count (Effect.maConnClose c) = 1) ∧
    (close fires st).1.connections.Sublist st.connections ∧
    (∀ c, c ∈ st.connections → c ∉ (close fires st).1.connections →
      c ∉ st.closed ∧ c ∈ (close fires st).1.closed) := by
  have hinv : Inv st := inv_run d cfg acts _ st inv_init hrun
  have hs := shrink_foldl_maConnClose fires st.connections st
  have heff := foldl_maConnClose_effects fires st.connections st
  rw [close_listening fires st hl]
  refine ⟨rfl, ?_, List.length_map _ _, ?_, hs.sublist, hs.removed⟩
  · simp only [serverClose, heff]
  · intro c hc
    have hinj : Function.Injective Effect.maConnClose := fun a b h => by injection h
    exact List.count_eq_one_of_mem (hinv.connNodup.map hinj) (List.mem_map_of_mem _ hc)

/-- Witness of `close_requests_every_connection`: two tracked connections, each
of which emits `'close'` before its `close()` returns. -/
theorem close_requests_every_connection_witness :
    (close (fun c => [c]) Demo.twoTracked).1.effects =
      Demo.twoTracked.effects ++ Demo.twoTracked.connections.map Effect.maConnClose ++
        [Effect.serverClose] :=
  (close_requests_every_connection Demo.deps Demo.cfg
    [Demo.listenPlain, Action.accept, Action.accept, Action.upgradeOk 0 10,
      Action.upgradeOk 1 11]
    Demo.twoTracked (fun c => [c]) rfl rfl).2.1

/-- C2 fails on the code: socket `0` is accepted, emits `'close'` while its
upgrade is in progress, and the upgrade then resolves. `trackConn` pushes the
connection and registers `untrackConn` for an event that was already emitted:
the registry holds a connection that has fully closed, `untrackConn` never ran
for it, the socket cannot emit `'close'` again, a listener `close()` leaves the
entry where it is, and it stays in the registry in every later state. -/
theorem closed_connection_stays_registered :
    run Demo.deps Demo.cfg (init Demo.Multiaddr)
      [Demo.listenPlain, Action.accept, Action.socketClose 0, Action.upgradeOk 0 10]
      = some Demo.closedBeforeTracked ∧
    Demo.closedBeforeTracked.closed = [0] ∧
    Demo.closedBeforeTracked.connections = [0] ∧
    Demo.closedBeforeTracked.untracked = [] ∧
    enabled Demo.closedBeforeTracked (Action.socketClose 0) = false ∧
    (close (fun c => [c]) Demo.closedBeforeTracked).1.connections = [0] ∧
    (∀ (later : List (Action Demo.Multiaddr)) (st : State Demo.Multiaddr),
      run Demo.deps Demo.cfg Demo.closedBeforeTracked later = some st →
        0 ∈ st.closed ∧ 0 ∈ st.connections ∧ 0 ∉ st.untracked) := by
  refine ⟨rfl, by decide, by decide, by decide, by decide, by decide, ?_⟩
  intro later st hrun
  exact run_preserves Demo.deps Demo.cfg (Stale 0)
    (fun st a h _ => stale_step Demo.deps Demo.cfg 0 st a h) later _ st
    ⟨by decide, by decide, by decide⟩ hrun

/-- C3, as stated, fails: after `listen` and one accepted socket, the upgrade
of socket `0` has been started and is in progress, the registry is empty, and
a listener `close()` calls `server.close` only. -/
theorem upgrading_connection_not_registered :
    run Demo.deps Demo.cfg (init Demo.Multiaddr) [Demo.listenPlain, Action.accept]
      = some Demo.oneUpgrading ∧
    Effect.upgradeInbound 0 ∈ Demo.oneUpgrading.effects ∧
    Demo.oneUpgrading.upgrading = [0] ∧
    Demo.oneUpgrading.connections = [] ∧
    (close (fun c => [c]) Demo.oneUpgrading).1.effects =
      Demo.oneUpgrading.effects ++ [Effect.serverClose] := by
  refine ⟨rfl, by decide, by decide, by decide, by decide⟩

/-- C3, amended: accepting a socket starts its upgrade and leaves the registry
as it is; in every reachable state a connection whose upgrade is in progress is
not in the registry and a listener `close()` requests no close on it; the
connection enters the registry when `upgradeInbound` has resolved. -/
theorem registered_after_upgrade (d : Deps M) (cfg : Config)
    (acts : List (Action M)) (st : State M)
    (hrun : run d cfg (init M) acts = some st) :
    ((accept st).connections = st.connections ∧
      st.nextSocket ∈ (accept st).upgrading ∧
      Effect.upgradeInbound st.nextSocket ∈ (accept st).effects) ∧
    (∀ s, s ∈ st.upgrading →
      s ∉ st.connections ∧
      (∀ fires, Effect.maConnClose s ∉ (close fires st).1.effects) ∧
      (∀ conn, s ∈ (upgradeResolved cfg st s conn).connections ∧
        s ∉ (upgradeResolved cfg st s conn).upgrading)) := by
  have hinv : Inv st := inv_run d cfg acts _ st inv_init hrun
  refine ⟨⟨rfl, by simp [accept], by simp [accept]⟩, ?_⟩
  intro s hs
  refine ⟨hinv.disj s hs, ?_, ?_⟩
  · intro fires
    have hinv' : Inv (close fires st).1 := inv_close fires st hinv
    have hup : s ∈ (close fires st).1.upgrading := by
      rcases close_cases fires st with h | ⟨st1, hsh, _, h⟩
      · rw [h]; exact hs
      · rw [h]
        simp only [serverClose, hsh.upgrading]
        exact hs
    exact (hinv'.quiet s (Or.inr hup)).2
  · intro conn
    rw [upgradeResolved_connections, upgradeResolved_upgrading]
    refine ⟨by simp, ?_⟩
    simp [List.mem_filter]

/-- Witness of `registered_after_upgrade`: the state after `listen` and one
accepted socket. -/
theorem registered_after_upgrade_witness :
    0 ∉ Demo.oneUpgrading.connections ∧
    (∀ fires, Effect.maConnClose 0 ∉ (close fires Demo.oneUpgrading).1.effects) ∧
    (∀ conn, 0 ∈ (upgradeResolved Demo.cfg Demo.oneUpgrading 0 conn).connections ∧
      0 ∉ (upgradeResolved Demo.cfg Demo.oneUpgrading 0 conn).upgrading) :=
  (registered_after_upgrade Demo.deps Demo.cfg [Demo.listenPlain, Action.accept]
    Demo.oneUpgrading rfl).2 0 (by decide)

/-- C4: `getAddrs()` throws the error `Listener is not ready yet` exactly when
`server.address()` is absent, and in every reachable state in which the
acceptor reports a bound address it returns a sequence. -/
theorem getAddrs_not_ready_iff (d : Deps M) (cfg : Config) (st : State M) :
    (getAddrs d st = Except.error (JsError.error "Listener is not ready yet") ↔
      st.address = none) ∧
    (∀ acts ep, run d cfg (init M) acts = some st → st.address = some ep →
      ∃ addrs, getAddrs d st = Except.ok addrs) := by
  constructor
  · constructor
    · intro h
      cases hadr : st.address with
      | none => rfl
      | some ep =>
        cases hla : st.listeningAddr with
        | none => simp [getAddrs, hadr, hla] at h
        | some la => rw [getAddrs_of_bound d st ep la hadr hla] at h; cases h
    · intro h
      simp [getAddrs, h]
  · intro acts ep hrun hadr
    have hinv : Inv st := inv_run d cfg acts _ st inv_init hrun
    cases hla : st.listeningAddr with
    | none => exact absurd hla (hinv.bound (by simp [hadr]))
    | some la => exact ⟨_, getAddrs_of_bound d st ep la hadr hla⟩

/-- Witness of `getAddrs_not_ready_iff`: after `listen` resolved, `getAddrs`
returns a sequence. -/
theorem getAddrs_not_ready_iff_witness :
    ∃ addrs, getAddrs Demo.deps Demo.plain = Except.ok addrs :=
  (getAddrs_not_ready_iff Demo.deps Demo.cfg Demo.plain).2 [Demo.listenPlain]
    { address := "127.0.0.1", family := "IPv4", port := 8000 } rfl rfl

/-- C8: when the upgrade of an accepted socket `s` resolves with `conn` in a
reachable state, nothing was delivered for `s` before; the continuation calls
`handler(conn)` (when a handler was supplied) and then emits `'connection'`
with `conn`; and in every later state the deliveries made for `s` are exactly
that one handler call followed by that one notification. -/
theorem upgraded_connection_delivered_once (d : Deps M) (cfg : Config)
    (acts : List (Action M)) (st : State M) (s : SocketId) (conn : UpgradedConn)
    (hrun : run d cfg (init M) acts = some st) (hs : s ∈ st.upgrading) :
    deliveries s st.effects = [] ∧
    (upgradeResolved cfg st s conn).effects = st.effects ++
      (if cfg.handler then [Effect.handler s conn, Effect.emitConnection s conn]
       else [Effect.emitConnection s conn]) ∧
    (∀ later st', run d cfg (upgradeResolved cfg st s conn) later = some st' →
      deliveries s st'.effects =
        if cfg.handler then [Effect.handler s conn, Effect.emitConnection s conn]
        else [Effect.emitConnection s conn]) := by
  have hinv : Inv st := inv_run d cfg acts _ st inv_init hrun
  have hq := (hinv.quiet s (Or.inr hs)).1
  have hexp : expectedDeliveries cfg s conn =
      (if cfg.handler then [Effect.handler s conn, Effect.emitConnection s conn]
       else [Effect.emitConnection s conn]) := by
    unfold expectedDeliveries
    cases cfg.handler <;> simp
  refine ⟨hq, ?_, ?_⟩
  · rw [upgradeResolved_effects, hexp]
  · intro later st' hlater
    have h0 : Settled s (expectedDeliveries cfg s conn) (upgradeResolved cfg st s conn) := by
      refine ⟨?_, ?_, ?_⟩
      · rw [upgradeResolved_nextSocket]; exact hinv.upLt s hs
      · rw [upgradeResolved_upgrading]
        simp [List.mem_filter]
      · rw [upgradeResolved_effects, deliveries_append, hq, deliveries_expected_self]
        rfl
    have := run_preserves d cfg (Settled s (expectedDeliveries cfg s conn))
      (fun st a h he => settled_step d cfg s _ st a h he) later _ st' h0 hlater
    rw [← hexp]
    exact this.2.2

/-- Witness of `upgraded_connection_delivered_once`: socket `0` of a listener
with a handler, upgraded to connection `10`. -/
theorem upgraded_connection_delivered_once_witness :
    (upgradeResolved Demo.cfg Demo.oneUpgrading 0 10).effects = Demo.oneUpgrading.effects ++
      [Effect.handler 0 10, Effect.emitConnection 0 10] :=
  (upgraded_connection_delivered_once Demo.deps Demo.cfg [Demo.listenPlain, Action.accept]
    Demo.oneUpgrading 0 10 rfl (by decide)).2.1

/-- C9, as stated, fails: after `listen`, one accepted socket and the rejection
of its upgrade, the calls made are the bind, the three calls of the accept
handler before its `await`, and the rejection of the handler's promise: no
`'error'` notification, no `maConn.close()`. -/
theorem upgrade_failure_not_surfaced :
    run Demo.deps Demo.cfg (init Demo.Multiaddr)
      [Demo.listenPlain, Action.accept, Action.upgradeFail 0 "handshake failed"]
      = some Demo.upgradeFailed ∧
    Demo.upgradeFailed.effects =
      [Effect.serverListen { host := "127.0.0.1", port := 8000 },
       Effect.socketOnError 0, Effect.toConnection 0, Effect.upgradeInbound 0,
       Effect.acceptRejected 0 "handshake failed"] ∧
    Effect.emit (ServerEvent.error "handshake failed") ∉ Demo.upgradeFailed.effects ∧
    Effect.maConnClose 0 ∉ Demo.upgradeFailed.effects := by
  refine ⟨rfl, by decide, by decide, by decide⟩

/-- C9, amended: when the upgrade of an accepted socket `s` rejects in a
reachable state, the only thing that follows is the rejection of the accept
handler's promise: no notification is emitted and the registry is as before;
and in every later state the connection is not in the registry, no
`maConn.close()` was called on it and nothing was delivered for it. -/
theorem upgrade_failure_dropped (d : Deps M) (cfg : Config)
    (acts : List (Action M)) (st : State M) (s : SocketId) (err : String)
    (hrun : run d cfg (init M) acts = some st) (hs : s ∈ st.upgrading) :
    (upgradeRejected st s err).effects = st.effects ++ [Effect.acceptRejected s err] ∧
    (upgradeRejected st s err).connections = st.connections ∧
    (∀ later st', run d cfg (upgradeRejected st s err) later = some st' →
      s ∉ st'.connections ∧ Effect.maConnClose s ∉ st'.effects ∧
      deliveries s st'.effects = []) := by
  have hinv : Inv st := inv_run d cfg acts _ st inv_init hrun
  have hq := hinv.quiet s (Or.inr hs)
  refine ⟨rfl, rfl, ?_⟩
  intro later st' hlater
  have hup : s ∉ (upgradeRejected st s err).upgrading := by
    simp [upgradeRejected, List.mem_filter]
  have hd : Dropped s (upgradeRejected st s err) := by
    refine ⟨hinv.upLt s hs, hup, hinv.disj s hs, ?_⟩
    simp [upgradeRejected, hq.2]
  have hse : Settled s [] (upgradeRejected st s err) := by
    refine ⟨hinv.upLt s hs, hup, ?_⟩
    simp only [upgradeRejected, deliveries_append, hq.1, List.nil_append]
    simp [deliveries, isDelivery]
  have h1 := run_preserves d cfg (Dropped s)
    (fun st a h he => dropped_step d cfg s st a h he) later _ st' hd hlater
  have h2 := run_preserves d cfg (Settled s [])
    (fun st a h he => settled_step d cfg s _ st a h he) later _ st' hse hlater
  exact ⟨h1.2.2.1, h1.2.2.2, h2.2.2⟩

/-- Witness of `upgrade_failure_dropped`: socket `0`, whose upgrade rejects
with `handshake failed`. -/
theorem upgrade_failure_dropped_witness :
    Demo.upgradeFailed.effects =
      Demo.oneUpgrading.effects ++ [Effect.acceptRejected 0 "handshake failed"] :=
  (upgrade_failure_dropped Demo.deps Demo.cfg [Demo.listenPlain, Action.accept]
    Demo.oneUpgrading 0 "handshake failed" rfl (by decide)).1

end Runs

end Listener
